import Mathlib

/-!
Shallow embedding of src/lazy_loader.py (class LazyLoader and its helper
dataclass LazyLoaderRefer).  Dates are modelled as integers, file paths and
CRS identifiers as strings, world coordinates as rationals.  The raster I/O
collaborators (os.scandir, datetime.strptime, rasterio.open, warp utilities,
gdal.Warp, windowed reads) are black boxes per the design document and are
modelled as an explicit environment record of pure functions.  Methods that
mutate the object are state-passing functions LoaderState -> LoaderState
(paired with an optional raised error, since Python exceptions leave the
partially mutated object behind).
-/

/-- Errors raised by the Python code: RuntimeError for the explicit guard
raises (the design document's PreconditionError), ValueError for
datetime.strptime mismatches and max([]) on an empty sequence, and
AttributeError for a failed gdal.Warp (which returns None, so the following
FlushCache() raises). -/
inductive PyErr where
  | runtimeError : PyErr
  | valueError : PyErr
  | attributeError : PyErr
deriving DecidableEq

/-- Geographic bounds (left, bottom, right, top), the rasterio bounds tuple
with named fields. -/
structure Bounds where
  left : ℚ
  bottom : ℚ
  right : ℚ
  top : ℚ
deriving DecidableEq

/-- An affine transform a b c d e f as produced by rasterio; the origin is
the pair (c, f). -/
structure Affine where
  a : ℚ
  b : ℚ
  c : ℚ
  d : ℚ
  e : ℚ
  f : ℚ
deriving DecidableEq

/-- rasterio.transform.from_origin west north xsize ysize =
Affine(xsize, 0, west, 0, -ysize, north). -/
def fromOrigin (west north xsize ysize : ℚ) : Affine :=
  { a := xsize, b := 0, c := west, d := 0, e := -ysize, f := north }

/-- The dataclass LazyLoaderRefer of the source. -/
structure LazyLoaderRefer where
  crs : String
  transform : Affine
  shape : ℤ × ℤ
  bounds : Bounds
  res : ℚ × ℚ
deriving DecidableEq

/-- One os.scandir entry: name, full path, is_file flag. -/
structure DirEntry where
  name : String
  path : String
  isFile : Bool

/-- What rasterio.open exposes of a source file: native crs, bounds and
resolution. -/
structure SrcInfo where
  crs : String
  bounds : Bounds
  res : ℚ × ℚ

/-- The external collaborators of the loader, as pure functions:
directory scan, date parsing (None models a strptime ValueError), source
metadata, bounds reprojection, warp success (false models gdal.Warp
returning None), and windowed reads (the returned string is the abstract
pixel array read from a vrt file for a window). -/
structure RasterEnv where
  scandir : String → List DirEntry
  strptime : String → String → Option ℤ
  openInfo : String → SrcInfo
  transformBounds : String → String → Bounds → Bounds
  warpOk : LazyLoaderRefer → String → Bool
  readWindow : String → (ℤ × ℤ × ℤ × ℤ) → String

/-- The mutable state of a LazyLoader object: limit, _reference, sig_init,
files (an insertion-ordered dict date -> path), sorted_files, vrt_files and
blocks. -/
structure LoaderState where
  limit : ℤ × ℤ
  reference : Option LazyLoaderRefer
  sig_init : Bool
  files : List (ℤ × String)
  sorted_files : List ℤ
  vrt_files : List String
  blocks : List (ℤ × ℤ)
deriving DecidableEq

/-- LazyLoader.__init__. -/
def mkLoader (limit : ℤ × ℤ) : LoaderState :=
  { limit := limit, reference := none, sig_init := false,
    files := [], sorted_files := [], vrt_files := [], blocks := [] }

/-- Python dict insertion: overwriting an existing key keeps its position,
a fresh key is appended at the end. -/
def dictInsert (l : List (ℤ × String)) (k : ℤ) (v : String) : List (ℤ × String) :=
  if l.any (fun p => p.1 = k) then
    l.map (fun p => if p.1 = k then (k, v) else p)
  else
    l ++ [(k, v)]

/-- Python sorted on the dict iterates its keys and sorts them ascending;
keys are unique, so a stable insertion sort models it exactly. -/
def insertSorted (d : ℤ) : List ℤ → List ℤ
  | [] => [d]
  | x :: xs => if d ≤ x then d :: x :: xs else x :: insertSorted d xs

/-- sorted(self.files): the ascending list of catalog dates. -/
def sortKeys (files : List (ℤ × String)) : List ℤ :=
  files.foldr (fun p acc => insertSorted p.1 acc) []

/-- The loop body of LazyLoader.addFilesFromPath: scan entries, keep files
with suffix .tif, parse the date from the file name and insert into the
dict; a parse failure raises ValueError leaving the dict partially
updated. -/
def addLoop (env : RasterEnv) (_format : String) :
    List DirEntry → LoaderState → LoaderState × Option PyErr
  | [], st => (st, none)
  | e :: rest, st =>
    if e.isFile && e.name.endsWith ".tif" then
      match env.strptime _format e.name with
      | none => (st, some PyErr.valueError)
      | some d => addLoop env _format rest { st with files := dictInsert st.files d e.path }
    else
      addLoop env _format rest st

/-- LazyLoader.addFilesFromPath(_path, _slice, _format): the _slice
parameter appears in the signature but is never read in the body; sig_init
is cleared only after the loop completes. -/
def addFilesFromPath (env : RasterEnv) (st : LoaderState) (_path : String)
    (_slice : Option ℤ × Option ℤ × Option ℤ) (_format : String) :
    LoaderState × Option PyErr :=
  match addLoop env _format (env.scandir _path) st with
  | (st2, some e) => (st2, some e)
  | (st2, none) => ({ st2 with sig_init := false }, none)

/-- LazyLoader.setReference: assigns _reference and nothing else. -/
def setReference (st : LoaderState) (reference : LazyLoaderRefer) : LoaderState :=
  { st with reference := some reference }

/-- Python int() on a rational: truncation toward zero. -/
def pyInt (q : ℚ) : ℤ :=
  if 0 ≤ q then ⌊q⌋ else ⌈q⌉

/-- Python max(l, key=k): iterates the list keeping the current best and
replaces it only when the key is strictly greater, so it returns the first
element attaining the maximal key; raises ValueError (None here) on an
empty list. -/
def pyMaxKey {α : Type} (k : α → ℕ) : List α → Option α
  | [] => none
  | x :: xs => some (xs.foldl (fun b c => if k b < k c then c else b) x)

/-- max(crs_list, key=crs_list.count) of the source. -/
def pyMaxByCount (l : List String) : Option String :=
  pyMaxKey (fun c => l.count c) l

/-- Modelling of the spec sentence: the first-encountered projection among
the maximum-frequency set, in source iteration order. -/
def firstEncounteredMode (l : List String) : Option String :=
  l.find? (fun c => l.all (fun d => decide (l.count d ≤ l.count c)))

/-- LazyLoader.getReferenceFromFiles: collect each file's crs, pick the
most frequent, transform every bounds to it, take the union bounds, read
the resolution of the first file, and build the reference; width and
height use Python int() truncation. -/
def getReferenceFromFiles (env : RasterEnv) (st : LoaderState) :
    LoaderState × Option PyErr :=
  let values := st.files.map Prod.snd
  let crs_list := values.map (fun p => (env.openInfo p).crs)
  match pyMaxByCount crs_list with
  | none => (st, some PyErr.valueError)
  | some target_crs =>
    let target_bounds := values.map (fun p =>
      let s := env.openInfo p
      if s.crs ≠ target_crs then env.transformBounds s.crs target_crs s.bounds
      else s.bounds)
    match values, target_bounds with
    | v0 :: _, tb0 :: tbs =>
      let target_left := tbs.foldl (fun m b => min m b.left) tb0.left
      let target_bottom := tbs.foldl (fun m b => min m b.bottom) tb0.bottom
      let target_right := tbs.foldl (fun m b => max m b.right) tb0.right
      let target_top := tbs.foldl (fun m b => max m b.top) tb0.top
      let res := (env.openInfo v0).res
      let transform := fromOrigin target_left target_top res.1 res.2
      let width := pyInt ((target_right - target_left) / res.1)
      let height := pyInt ((target_top - target_bottom) / res.2)
      ({ st with
          sig_init := false,
          reference := some
            { crs := target_crs, transform := transform,
              shape := (width, height),
              bounds := { left := target_left, bottom := target_bottom,
                          right := target_right, top := target_top },
              res := res } }, none)
    | _, _ => (st, some PyErr.valueError)

/-- The vrt path derived from a source path (tempdir and basename are
abstracted away; only identity of the backing resource matters). -/
def vrtName (p : String) : String := p ++ ".vrt"

/-- The warp loop of LazyLoader.init: for each file path, gdal.Warp builds
a vrt and its path is appended to vrt_files; a warp failure raises,
leaving the already appended paths behind. -/
def warpLoop (env : RasterEnv) (ref : LazyLoaderRefer) :
    List String → LoaderState → LoaderState × Option PyErr
  | [], st => (st, none)
  | p :: ps, st =>
    if env.warpOk ref p then
      warpLoop env ref ps { st with vrt_files := st.vrt_files ++ [vrtName p] }
    else
      (st, some PyErr.attributeError)

/-- Python range(n) for an integer n (empty when n is not positive). -/
def pyRange (n : ℤ) : List ℤ :=
  (List.range n.toNat).map (fun i : ℕ => (i : ℤ))

/-- The block planning of LazyLoader.init: x_blocks and y_blocks by
ceiling division written as (w + limit - 1) // limit, then the nested
comprehension [(x, y) for x in range(x_blocks) for y in range(y_blocks)]. -/
def planBlocks (shape : ℤ × ℤ) (limit : ℤ × ℤ) : List (ℤ × ℤ) :=
  (pyRange ((shape.1 + limit.1 - 1).fdiv limit.1)).flatMap (fun x =>
    (pyRange ((shape.2 + limit.2 - 1).fdiv limit.2)).map (fun y => (x, y)))

/-- LazyLoader.init.  The source first raises when no reference is set;
its second guard tests whether self.files is None, which is never true
because the constructor assigns a dict, so an empty catalog passes the
guard.  It then stores the sorted keys in sorted_files (a value the rest
of the code never reads), runs the warp loop (appending to vrt_files
without clearing it), computes the blocks and sets sig_init. -/
def init (env : RasterEnv) (st : LoaderState) : LoaderState × Option PyErr :=
  match st.reference with
  | none => (st, some PyErr.runtimeError)
  | some ref =>
    match warpLoop env ref (st.files.map Prod.snd)
        { st with sorted_files := sortKeys st.files } with
    | (st2, some e) => (st2, some e)
    | (st2, none) =>
      ({ st2 with blocks := planBlocks ref.shape st2.limit, sig_init := true }, none)

/-- LazyLoader.getWindow: the pixel window of a tile index; it reads the
field self.reference.shape, so a missing reference raises
(AttributeError), modelled by none. -/
def getWindow (st : LoaderState) (index : ℤ × ℤ) : Option (ℤ × ℤ × ℤ × ℤ) :=
  match st.reference with
  | none => none
  | some r =>
    some (index.1 * st.limit.1, index.2 * st.limit.2,
      min st.limit.1 (r.shape.1 - index.1 * st.limit.1),
      min st.limit.2 (r.shape.2 - index.2 * st.limit.2))

/-- LazyLoader.getBlock: guard on sig_init, then read the tile window from
every vrt file in vrt_files order and stack the results.  The method never
assigns a field, so the state component of the result is the input
state. -/
def getBlock (env : RasterEnv) (st : LoaderState) (index : ℤ × ℤ) :
    LoaderState × Except PyErr (List String) :=
  if st.sig_init = false then
    (st, Except.error PyErr.runtimeError)
  else
    match getWindow st index with
    | none => (st, Except.error PyErr.attributeError)
    | some w => (st, Except.ok (st.vrt_files.map (fun v => env.readWindow v w)))

/-- LazyLoader.__iter__: yield getBlock for every planned block, threading
the state. -/
def iterLoader (env : RasterEnv) (st : LoaderState) :
    LoaderState × List (Except PyErr (List String)) :=
  st.blocks.foldl
    (fun acc idx =>
      let r := getBlock env acc.1 idx
      (r.1, acc.2 ++ [r.2]))
    (st, [])

/-- A reference grid used by the concrete scenarios: crs A, a 10 by 10
pixel grid with unit resolution. -/
def refA : LazyLoaderRefer :=
  { crs := "A", transform := fromOrigin 0 10 1 1, shape := (10, 10),
    bounds := { left := 0, bottom := 0, right := 10, top := 10 }, res := (1, 1) }

/-- An environment in which every collaborator succeeds; a windowed read
returns the vrt path it was read from, so the stacking order is
observable. -/
def envOk : RasterEnv :=
  { scandir := fun _ => [], strptime := fun _ _ => none,
    openInfo := fun _ =>
      { crs := "A",
        bounds := { left := 0, bottom := 0, right := 10, top := 10 },
        res := (1, 1) },
    transformBounds := fun _ _ b => b,
    warpOk := fun _ _ => true,
    readWindow := fun v _ => v }

/-- An environment in which gdal.Warp fails on every file. -/
def envBad : RasterEnv := { envOk with warpOk := fun _ _ => false }

/-- A loader state with the reference set and one cataloged file. -/
def st0 : LoaderState :=
  { limit := (4, 4), reference := some refA, sig_init := false,
    files := [(1, "a")], sorted_files := [], vrt_files := [], blocks := [] }

/-- A loader whose catalog was filled in non-chronological insertion
order: the file of date 2 was scanned before the file of date 1. -/
def stC1 : LoaderState := { st0 with files := [(2, "b"), (1, "a")] }

/-- A loader with a reference but an empty catalog. -/
def stEmpty : LoaderState := { st0 with files := [] }

/-- An environment whose single source has bounds (0,0,7,2) and resolution
(2,1), so the width computation (7 - 0) / 2 = 3.5 distinguishes
truncation from rounding. -/
def envT : RasterEnv :=
  { envOk with openInfo := fun _ =>
      { crs := "A",
        bounds := { left := 0, bottom := 0, right := 7, top := 2 },
        res := (2, 1) } }

/-- A loader with one cataloged file and no reference yet. -/
def stT : LoaderState := { st0 with reference := none }

/-- The reference that getReferenceFromFiles produces in envT: width is
int(3.5) = 3. -/
def refT : LazyLoaderRefer :=
  { crs := "A", transform := fromOrigin 0 2 2 1, shape := (3, 2),
    bounds := { left := 0, bottom := 0, right := 7, top := 2 }, res := (2, 1) }

/-! Helper lemmas about the warp loop and the block iteration. -/

/-- The warp loop never touches sig_init. -/
theorem warpLoop_sig_init (env : RasterEnv) (ref : LazyLoaderRefer) :
    ∀ (ps : List String) (st : LoaderState),
      ((warpLoop env ref ps st).1).sig_init = st.sig_init := by
  intro ps
  induction ps with
  | nil => intro st; rfl
  | cons p ps ih =>
    intro st
    unfold warpLoop
    cases h : env.warpOk ref p <;> simp [h, ih]

/-- A successful warp loop appends exactly one vrt path per input path and
changes nothing else. -/
theorem warpLoop_success (env : RasterEnv) (ref : LazyLoaderRefer) :
    ∀ (ps : List String) (st st2 : LoaderState),
      warpLoop env ref ps st = (st2, none) →
      st2 = { st with vrt_files := st.vrt_files ++ ps.map vrtName } := by
  intro ps
  induction ps with
  | nil =>
    intro st st2 h
    simp only [warpLoop] at h
    injection h with h1 _
    simp [← h1]
  | cons p ps ih =>
    intro st st2 h
    unfold warpLoop at h
    cases hw : env.warpOk ref p with
    | false => rw [hw] at h; simp at h
    | true =>
      rw [hw] at h
      simp only [if_true] at h
      have h2 := ih _ _ h
      simp [h2, List.append_assoc]

/-- A successful init rebuilds sorted_files and blocks, appends one vrt
per cataloged file, sets sig_init, and leaves limit, reference and files
unchanged. -/
theorem init_success_eq (env : RasterEnv) (st st2 : LoaderState)
    (ref : LazyLoaderRefer) (h : st.reference = some ref)
    (hs : init env st = (st2, none)) :
    st2 = { st with
      sorted_files := sortKeys st.files,
      vrt_files := st.vrt_files ++ (st.files.map Prod.snd).map vrtName,
      blocks := planBlocks ref.shape st.limit,
      sig_init := true } := by
  obtain ⟨lim, refO, sig, fls, sor, vrt, blk⟩ := st
  obtain rfl : refO = some ref := h
  simp only [init] at hs
  rcases hw : warpLoop env ref (List.map Prod.snd fls)
      ⟨lim, some ref, sig, fls, sortKeys fls, vrt, blk⟩ with ⟨stw, oe⟩
  rw [hw] at hs
  cases oe with
  | some e => simp at hs
  | none =>
    have h2 := warpLoop_success env ref _ _ _ hw
    injection hs with h1 _
    rw [← h1, h2]

/-- getBlock assigns no field of the loader. -/
theorem getBlock_fst (env : RasterEnv) (st : LoaderState) (idx : ℤ × ℤ) :
    (getBlock env st idx).1 = st := by
  unfold getBlock
  by_cases h : st.sig_init = false
  · simp [h]
  · simp only [h, if_false]
    cases hw : getWindow st idx <;> simp

/-- Iteration assigns no field of the loader. -/
theorem iterLoader_fst (env : RasterEnv) (st : LoaderState) :
    (iterLoader env st).1 = st := by
  unfold iterLoader
  have key : ∀ (bs : List (ℤ × ℤ)) (s : LoaderState)
      (acc : List (Except PyErr (List String))),
      (bs.foldl (fun acc idx =>
        (acc.1, acc.2 ++ [(getBlock env acc.1 idx).2]))
        (s, acc)).1 = s := by
    intro bs
    induction bs with
    | nil => intro s acc; rfl
    | cons b bs ih =>
      intro s acc
      simp only [List.foldl_cons]
      exact ih s (acc ++ [(getBlock env s b).2])
  simp only [getBlock_fst]
  exact key st.blocks st []

/-- C10: the _slice parameter of addFilesFromPath has no effect: for every
environment (directory content, date format) and prior loader state, two
runs differing only in the _slice argument produce identical results. -/
theorem addFilesFromPath_slice_dead :
    ∀ (env : RasterEnv) (st : LoaderState) (p : String)
      (s1 s2 : Option ℤ × Option ℤ × Option ℤ) (fmt : String),
      addFilesFromPath env st p s1 fmt = addFilesFromPath env st p s2 fmt :=
  fun _ _ _ _ _ _ => rfl

/-- C3 (amended): a successful addFilesFromPath and a successful
getReferenceFromFiles leave sig_init false, but setReference leaves
sig_init unchanged, so a reference reassignment through setReference does
not invalidate stale views. -/
theorem catalog_mutation_clears_ready :
    (∀ (env : RasterEnv) (st : LoaderState) (p : String)
        (sl : Option ℤ × Option ℤ × Option ℤ) (fmt : String) (st2 : LoaderState),
        addFilesFromPath env st p sl fmt = (st2, none) → st2.sig_init = false) ∧
    (∀ (env : RasterEnv) (st st2 : LoaderState),
        getReferenceFromFiles env st = (st2, none) → st2.sig_init = false) ∧
    (∀ (st : LoaderState) (r : LazyLoaderRefer),
        (setReference st r).sig_init = st.sig_init) := by
  refine ⟨?_, ?_, ?_⟩
  · intro env st p sl fmt st2 h
    unfold addFilesFromPath at h
    rcases ha : addLoop env fmt (env.scandir p) st with ⟨st3, oe⟩
    rw [ha] at h
    cases oe with
    | some e => simp at h
    | none =>
      injection h with h1 _
      rw [← h1]
  · intro env st st2 h
    obtain ⟨lim, refO, sig, fls, sor, vrt, blk⟩ := st
    cases fls with
    | nil =>
      simp [getReferenceFromFiles, pyMaxByCount, pyMaxKey] at h
    | cons hd rest =>
      obtain ⟨d, pth⟩ := hd
      simp only [getReferenceFromFiles, pyMaxByCount, pyMaxKey, List.map_cons,
        Prod.mk.injEq] at h
      rw [← h.1]
  · intro st r
    rfl

/-- C3 counterexample: on an initialized loader (ready), reassigning the
reference through setReference leaves the loader ready, although the claim
says every reference reassignment clears the readiness flag. -/
theorem setReference_keeps_ready :
    ((init envOk st0).1).sig_init = true ∧
    (setReference ((init envOk st0).1) refT).sig_init = true := by decide

/-- C3 witness: a concrete successful addFilesFromPath leaves sig_init
false, and setReference on a concrete state preserves the flag. -/
theorem catalog_mutation_clears_ready_witness :
    addFilesFromPath envOk st0 "d" (none, none, none) "f" =
      ((addFilesFromPath envOk st0 "d" (none, none, none) "f").1, none) ∧
    ((addFilesFromPath envOk st0 "d" (none, none, none) "f").1).sig_init = false :=
  ⟨by decide,
    catalog_mutation_clears_ready.1 envOk st0 "d" (none, none, none) "f"
      ((addFilesFromPath envOk st0 "d" (none, none, none) "f").1) (by decide)⟩

/-- C5: init() on a loader with a reference set and an empty catalog does
not raise: the source guard tests whether files is None, which is never
true since the constructor assigns a dict, so init completes and sets
sig_init, while the claim requires a PreconditionError. -/
theorem init_empty_catalog_succeeds :
    stEmpty.files = [] ∧ stEmpty.reference = some refA ∧
    (init envOk stEmpty).2 = none ∧ ((init envOk stEmpty).1).sig_init = true := by
  decide

/-- C4 (amended): a failed init() leaves sig_init exactly as it was before
the call, not necessarily false: the guard raises before any mutation and
a warp failure raises without touching the flag, so a previously
initialized loader stays ready after a failed re-init. -/
theorem failed_init_preserves_sig_init :
    ∀ (env : RasterEnv) (st : LoaderState),
      (init env st).2 ≠ none → ((init env st).1).sig_init = st.sig_init := by
  intro env st h
  rcases hr : st.reference with _ | ref
  · simp [init, hr]
  · obtain ⟨lim, refO, sig, fls, sor, vrt, blk⟩ := st
    obtain rfl : refO = some ref := hr
    simp only [init] at h ⊢
    rcases hw : warpLoop env ref (List.map Prod.snd fls)
        ⟨lim, some ref, sig, fls, sortKeys fls, vrt, blk⟩ with ⟨stw, oe⟩
    rw [hw] at h
    cases oe with
    | none => simp at h
    | some e =>
      have hsig := warpLoop_sig_init env ref (List.map Prod.snd fls)
        ⟨lim, some ref, sig, fls, sortKeys fls, vrt, blk⟩
      rw [hw] at hsig
      exact hsig

/-- C4 counterexample: a loader initialized successfully and then re-initialized
in an environment where the warp fails raises out of init() but is still
flagged ready afterwards, although the claim requires ready=false after
every failed init. -/
theorem failed_reinit_keeps_ready :
    ((init envBad ((init envOk st0).1)).2) = some PyErr.attributeError ∧
    ((init envBad ((init envOk st0).1)).1).sig_init = true := by decide

/-- C4 witness: the amended statement applied to a concrete failing init
(warp failure on a never-initialized loader). -/
theorem failed_init_preserves_sig_init_witness :
    (init envBad st0).2 ≠ none ∧ ((init envBad st0).1).sig_init = st0.sig_init :=
  ⟨by decide, failed_init_preserves_sig_init envBad st0 (by decide)⟩

/-- C2 (amended): re-running init() with no catalog or reference change
yields the same tile list and leaves catalog, reference and readiness
unchanged, but the previous aligned views are not released: each init
appends one vrt per cataloged file, so the backing view count grows by the
catalog size at every re-init instead of staying stable. -/
theorem init_twice_same_blocks_views_grow :
    ∀ (env : RasterEnv) (st st1 st2 : LoaderState),
      init env st = (st1, none) → init env st1 = (st2, none) →
      st2.blocks = st1.blocks ∧ st2.files = st1.files ∧
      st2.reference = st1.reference ∧ st2.sig_init = true ∧
      st2.vrt_files.length = st1.vrt_files.length + st1.files.length := by
  intro env st st1 st2 h1 h2
  rcases hr : st.reference with _ | ref
  · rw [init, hr] at h1
    simp at h1
  · have e1 := init_success_eq env st st1 ref hr h1
    have hr1 : st1.reference = some ref := by rw [e1]; exact hr
    have e2 := init_success_eq env st1 st2 ref hr1 h2
    subst e2
    subst e1
    refine ⟨rfl, rfl, rfl, rfl, ?_⟩
    simp only [List.length_append, List.length_map]

/-- C2 counterexample: one cataloged file, two successful inits: the
count of backing vrt views is 2 after the second init and 1 after the
first, so the count of backing view resources is not stable across
re-inits. -/
theorem init_twice_count_unstable :
    (init envOk st0).2 = none ∧ (init envOk ((init envOk st0).1)).2 = none ∧
    ((init envOk ((init envOk st0).1)).1).vrt_files.length ≠
      ((init envOk st0).1).vrt_files.length := by decide

/-- C2 witness: the amended statement applied to the concrete double init
of st0. -/
theorem init_twice_same_blocks_views_grow_witness :
    init envOk st0 = ((init envOk st0).1, none) ∧
    ((init envOk ((init envOk st0).1)).1).vrt_files.length =
      ((init envOk st0).1).vrt_files.length + ((init envOk st0).1).files.length := by
  have hA : init envOk st0 = ((init envOk st0).1, none) := by decide
  have hB : init envOk ((init envOk st0).1) =
      ((init envOk ((init envOk st0).1)).1, none) := by decide
  exact ⟨hA, (init_twice_same_blocks_views_grow envOk st0 _ _ hA hB).2.2.2.2⟩

/-- C9: on a ready loader, getBlock and iteration assign no loader field,
and re-iterating the unchanged loader yields the identical sequence of
results. -/
theorem getBlock_iter_frame_restartable :
    ∀ (env : RasterEnv) (st : LoaderState), st.sig_init = true →
      (∀ idx : ℤ × ℤ, (getBlock env st idx).1 = st) ∧
      (iterLoader env st).1 = st ∧
      (iterLoader env ((iterLoader env st).1)).2 = (iterLoader env st).2 := by
  intro env st _
  refine ⟨fun idx => getBlock_fst env st idx, iterLoader_fst env st, ?_⟩
  rw [iterLoader_fst env st]

/-- C9 witness: the frame and restartability statement applied to the
concretely initialized loader of st0. -/
theorem getBlock_iter_frame_restartable_witness :
    ((init envOk st0).1).sig_init = true ∧
    (iterLoader envOk ((init envOk st0).1)).1 = (init envOk st0).1 :=
  ⟨by decide,
    (getBlock_iter_frame_restartable envOk ((init envOk st0).1) (by decide)).2.1⟩

/-- C1: the stacked tile read follows the catalog dict insertion order,
not the chronological order: with files inserted as date 2 then date 1,
getBlock stacks the date-2 slice first, while the ascending-date order
would put the date-1 slice first; sorted keys are computed into
sorted_files but never drive the read. -/
theorem getBlock_stacks_in_insertion_order :
    (getBlock envOk ((init envOk stC1).1) (0, 0)).2.toOption =
      some ["b.vrt", "a.vrt"] ∧
    (sortKeys stC1.files).map
      (fun d => vrtName ((stC1.files.lookup d).getD "")) = ["a.vrt", "b.vrt"] ∧
    (["b.vrt", "a.vrt"] : List String) ≠ ["a.vrt", "b.vrt"] := by decide

/-! Tile planning: ceiling division and the nested enumeration order. -/

/-- Python (a + b - 1) // b with a positive divisor is the rational
ceiling of a / b. -/
theorem fdiv_add_pred_eq_ceil (a b : ℤ) (hb : 0 < b) :
    (a + b - 1).fdiv b = ⌈(a : ℚ) / (b : ℚ)⌉ := by
  have hb' : (0 : ℚ) < (b : ℚ) := by exact_mod_cast hb
  rw [Int.fdiv_eq_ediv _ (le_of_lt hb)]
  have hd := Int.ediv_add_emod (a + b - 1) b
  have hr0 : 0 ≤ (a + b - 1) % b := Int.emod_nonneg _ (ne_of_gt hb)
  have hr1 : (a + b - 1) % b < b := Int.emod_lt_of_pos _ hb
  rw [eq_comm, Int.ceil_eq_iff]
  constructor
  · rw [lt_div_iff₀ hb']
    have key : b * ((a + b - 1) / b) - b < a := by linarith
    calc ((((a + b - 1) / b : ℤ) : ℚ) - 1) * (b : ℚ)
        = ((b * ((a + b - 1) / b) - b : ℤ) : ℚ) := by push_cast; ring
      _ < (a : ℚ) := by exact_mod_cast key
  · rw [div_le_iff₀ hb']
    have key : a ≤ b * ((a + b - 1) / b) := by linarith
    calc (a : ℚ) ≤ ((b * ((a + b - 1) / b) : ℤ) : ℚ) := by exact_mod_cast key
      _ = (((a + b - 1) / b : ℤ) : ℚ) * (b : ℚ) := by push_cast; ring

/-- The nested comprehension for x in range xb, for y in range yb equals
the flat enumeration by tile index n -> (n / yb, n % yb). -/
theorem flatMap_range_enum {α : Type} (f : ℕ → ℕ → α) :
    ∀ xb yb : ℕ,
      ((List.range xb).flatMap (fun i => (List.range yb).map (f i))) =
        (List.range (xb * yb)).map (fun n => f (n / yb) (n % yb)) := by
  intro xb yb
  cases yb with
  | zero => simp
  | succ yc =>
    induction xb with
    | zero => simp
    | succ xb ih =>
      rw [List.range_succ, List.flatMap_append, ih]
      have hR : List.range ((xb + 1) * (yc + 1)) =
          List.range (xb * (yc + 1)) ++
            (List.range (yc + 1)).map (fun j => xb * (yc + 1) + j) := by
        rw [Nat.succ_mul, List.range_add]
      rw [hR, List.map_append, List.map_map]
      congr 1
      have step : ∀ j ∈ List.range (yc + 1),
          f xb j =
            ((fun n => f (n / (yc + 1)) (n % (yc + 1))) ∘
              (fun j => xb * (yc + 1) + j)) j := by
        intro j hj
        have hjlt : j < yc + 1 := List.mem_range.mp hj
        have hshift : xb * (yc + 1) + j = j + (yc + 1) * xb := by ring
        simp only [Function.comp_apply]
        rw [hshift, Nat.add_mul_div_left _ _ (Nat.succ_pos yc),
          Nat.add_mul_mod_self_left, Nat.div_eq_of_lt hjlt, Nat.mod_eq_of_lt hjlt,
          Nat.zero_add]
      simp only [List.flatMap_cons, List.flatMap_nil, List.append_nil]
      rw [List.map_congr_left step]

/-- The ℤ-valued instance of the enumeration: mapped ranges of integers. -/
theorem planEnumZ (xb yb : ℕ) :
    (((List.range xb).map (fun i : ℕ => (i : ℤ))).flatMap (fun x =>
      ((List.range yb).map (fun j : ℕ => (j : ℤ))).map (fun y => (x, y)))) =
      (List.range (xb * yb)).map
        (fun n => (((n / yb : ℕ) : ℤ), ((n % yb : ℕ) : ℤ))) := by
  rw [List.flatMap_map]
  have fuse : (fun (i : ℕ) =>
      ((List.range yb).map (fun j : ℕ => (j : ℤ))).map (fun y => ((i : ℤ), y))) =
      fun (i : ℕ) => (List.range yb).map (fun j : ℕ => ((i : ℤ), (j : ℤ))) := by
    funext i
    rw [List.map_map]
    rfl
  rw [fuse]
  exact flatMap_range_enum (fun i j => ((i : ℤ), (j : ℤ))) xb yb

/-- planBlocks unfolded to the flat enumeration over natural indices. -/
theorem planBlocks_enum (w h mw mh : ℤ) :
    planBlocks (w, h) (mw, mh) =
      (List.range (((w + mw - 1).fdiv mw).toNat * ((h + mh - 1).fdiv mh).toNat)).map
        (fun n => (((n / ((h + mh - 1).fdiv mh).toNat : ℕ) : ℤ),
                   ((n % ((h + mh - 1).fdiv mh).toNat : ℕ) : ℤ))) :=
  planEnumZ ((w + mw - 1).fdiv mw).toNat ((h + mh - 1).fdiv mh).toNat

/-- C6: for positive shape and positive limit, the planner emits exactly
ceil(w/maxW) * ceil(h/maxH) tiles, enumerated x-outer y-inner (the n-th
tile is (n / tileCountY, n % tileCountY)), each tile's window is
(x*maxW, y*maxH, min maxW (w - x*maxW), min maxH (h - y*maxH)); and the
concrete plan for shape (10,10) with limit (4,4) is the nine claimed
tiles with the claimed clipped windows. -/
theorem tile_planning_correct :
    (∀ w h mw mh : ℤ, 0 < w → 0 < h → 0 < mw → 0 < mh →
      (w + mw - 1).fdiv mw = ⌈(w : ℚ) / (mw : ℚ)⌉ ∧
      (h + mh - 1).fdiv mh = ⌈(h : ℚ) / (mh : ℚ)⌉ ∧
      (planBlocks (w, h) (mw, mh)).length =
        ((w + mw - 1).fdiv mw).toNat * ((h + mh - 1).fdiv mh).toNat ∧
      planBlocks (w, h) (mw, mh) =
        (List.range (((w + mw - 1).fdiv mw).toNat *
            ((h + mh - 1).fdiv mh).toNat)).map
          (fun n => (((n / ((h + mh - 1).fdiv mh).toNat : ℕ) : ℤ),
                     ((n % ((h + mh - 1).fdiv mh).toNat : ℕ) : ℤ)))) ∧
    (∀ (st : LoaderState) (r : LazyLoaderRefer) (idx : ℤ × ℤ),
      st.reference = some r →
      getWindow st idx = some (idx.1 * st.limit.1, idx.2 * st.limit.2,
        min st.limit.1 (r.shape.1 - idx.1 * st.limit.1),
        min st.limit.2 (r.shape.2 - idx.2 * st.limit.2))) ∧
    planBlocks (10, 10) (4, 4) =
      [(0, 0), (0, 1), (0, 2), (1, 0), (1, 1), (1, 2), (2, 0), (2, 1), (2, 2)] ∧
    (planBlocks (10, 10) (4, 4)).map (fun t => getWindow st0 t) =
      [some (0, 0, 4, 4), some (0, 4, 4, 4), some (0, 8, 4, 2),
       some (4, 0, 4, 4), some (4, 4, 4, 4), some (4, 8, 4, 2),
       some (8, 0, 2, 4), some (8, 4, 2, 4), some (8, 8, 2, 2)] := by
  refine ⟨?_, ?_, by decide, by decide⟩
  · intro w h mw mh _ _ hmw hmh
    refine ⟨fdiv_add_pred_eq_ceil w mw hmw, fdiv_add_pred_eq_ceil h mh hmh, ?_,
      planBlocks_enum w h mw mh⟩
    rw [planBlocks_enum w h mw mh]
    simp
  · intro st r idx h
    simp [getWindow, h]

/-- C6 witness: the general planner statement applied at shape (10,10)
and limit (4,4). -/
theorem tile_planning_correct_witness :
    (0 : ℤ) < 10 ∧ (0 : ℤ) < 4 ∧
    ((10 + 4 - 1 : ℤ).fdiv 4 = ⌈(10 : ℚ) / (4 : ℚ)⌉ ∧
     (10 + 4 - 1 : ℤ).fdiv 4 = ⌈(10 : ℚ) / (4 : ℚ)⌉ ∧
     (planBlocks (10, 10) (4, 4)).length =
       ((10 + 4 - 1 : ℤ).fdiv 4).toNat * ((10 + 4 - 1 : ℤ).fdiv 4).toNat ∧
     planBlocks (10, 10) (4, 4) =
       (List.range (((10 + 4 - 1 : ℤ).fdiv 4).toNat *
           ((10 + 4 - 1 : ℤ).fdiv 4).toNat)).map
         (fun n => (((n / ((10 + 4 - 1 : ℤ).fdiv 4).toNat : ℕ) : ℤ),
                    ((n % ((10 + 4 - 1 : ℤ).fdiv 4).toNat : ℕ) : ℤ)))) :=
  ⟨by decide, by decide,
    tile_planning_correct.1 10 10 4 4 (by decide) (by decide) (by decide) (by decide)⟩

/-! Python max(key=count): the first element attaining the maximal key. -/

/-- The seed is below a left fold of max. -/
theorem le_foldl_max (l : List ℕ) : ∀ s : ℕ, s ≤ l.foldl max s := by
  induction l with
  | nil => intro s; exact le_refl s
  | cons c t ih =>
    intro s
    exact le_trans (le_max_left s c) (ih (max s c))

/-- Every member is below a left fold of max. -/
theorem mem_le_foldl_max (l : List ℕ) : ∀ (s x : ℕ), x ∈ l → x ≤ l.foldl max s := by
  induction l with
  | nil => intro s x hx; cases hx
  | cons c t ih =>
    intro s x hx
    rcases List.mem_cons.mp hx with h | h
    · subst h
      exact le_trans (le_max_right _ _) (le_foldl_max t _)
    · exact ih (max s c) x h

/-- A left fold of max is below any upper bound of the seed and members. -/
theorem foldl_max_le (l : List ℕ) : ∀ s t : ℕ, s ≤ t → (∀ x ∈ l, x ≤ t) →
    l.foldl max s ≤ t := by
  induction l with
  | nil => intro s t hs _; exact hs
  | cons c r ih =>
    intro s t hs hl
    exact ih (max s c) t (max_le hs (hl c (List.mem_cons_self c r)))
      (fun x hx => hl x (List.mem_cons_of_mem c hx))

/-- find? only depends on the predicate values on members. -/
theorem find?_congr_mem {α : Type} (p q : α → Bool) :
    ∀ l : List α, (∀ a ∈ l, p a = q a) → l.find? p = l.find? q := by
  intro l
  induction l with
  | nil => intro _; rfl
  | cons a t ih =>
    intro h
    have ha := h a (List.mem_cons_self a t)
    cases hpa : p a with
    | true =>
      rw [List.find?_cons_of_pos _ hpa, List.find?_cons_of_pos _ (ha ▸ hpa)]
    | false =>
      rw [List.find?_cons_of_neg _ (by simp [hpa]), List.find?_cons_of_neg _ (by
        rw [← ha]; simp [hpa])]
      exact ih (fun b hb => h b (List.mem_cons_of_mem a hb))

/-- The fold of the Python max loop is the first element of the list whose
key attains the maximum of all keys. -/
theorem pyFold_find {α : Type} (k : α → ℕ) :
    ∀ (ys : List α) (b : α),
      (b :: ys).find? (fun c => decide ((ys.map k).foldl max (k b) ≤ k c)) =
        some (ys.foldl (fun x y => if k x < k y then y else x) b) := by
  intro ys
  induction ys with
  | nil =>
    intro b
    simp only [List.map_nil, List.foldl_nil]
    rw [List.find?_cons_of_pos _ (by simp)]
  | cons c t ih =>
    intro b
    simp only [List.map_cons, List.foldl_cons]
    by_cases hk : k b < k c
    · simp only [max_eq_right (le_of_lt hk), if_pos hk]
      have hM : k c ≤ (t.map k).foldl max (k c) := le_foldl_max (t.map k) (k c)
      rw [List.find?_cons_of_neg _ (by
        simp only [decide_eq_true_eq, not_le]
        exact lt_of_lt_of_le hk hM)]
      exact ih c
    · simp only [max_eq_left (not_lt.mp hk), if_neg hk]
      have hIH := ih b
      by_cases hb : (t.map k).foldl max (k b) ≤ k b
      · rw [List.find?_cons_of_pos _ (by simp [hb])]
        rw [List.find?_cons_of_pos _ (by simp [hb])] at hIH
        exact hIH
      · rw [List.find?_cons_of_neg _ (by simp [hb])]
        rw [List.find?_cons_of_neg _ (by
          simp only [decide_eq_true_eq, not_le]
          exact lt_of_le_of_lt (not_lt.mp hk) (not_le.mp hb))]
        rw [List.find?_cons_of_neg _ (by simp [hb])] at hIH
        exact hIH

/-- Python max(l, key=l.count) equals the spec's first-encountered
maximum-frequency element, for nonempty lists. -/
theorem pyMaxByCount_eq_firstMode (l : List String) (hne : l ≠ []) :
    pyMaxByCount l = firstEncounteredMode l := by
  cases l with
  | nil => exact absurd rfl hne
  | cons x xs =>
    unfold pyMaxByCount pyMaxKey firstEncounteredMode
    have hcongr : ∀ a ∈ x :: xs,
        ((x :: xs).all (fun d =>
          decide ((x :: xs).count d ≤ (x :: xs).count a))) =
        decide ((xs.map ((x :: xs).count)).foldl max ((x :: xs).count x) ≤
          (x :: xs).count a) := by
      intro a _
      rw [Bool.eq_iff_iff]
      rw [List.all_eq_true, decide_eq_true_eq]
      constructor
      · intro hall
        refine foldl_max_le _ _ _ ?_ ?_
        · have := hall x (List.mem_cons_self x xs)
          rw [decide_eq_true_eq] at this
          exact this
        · intro v hv
          rcases List.mem_map.mp hv with ⟨d, hd, rfl⟩
          have := hall d (List.mem_cons_of_mem x hd)
          rw [decide_eq_true_eq] at this
          exact this
      · intro hM d hd
        rw [decide_eq_true_eq]
        rcases List.mem_cons.mp hd with h | h
        · subst h
          exact le_trans (le_foldl_max _ _) hM
        · exact le_trans
            (mem_le_foldl_max (xs.map ((x :: xs).count)) _ _
              (List.mem_map_of_mem ((x :: xs).count) h)) hM
    rw [find?_congr_mem _ _ (x :: xs) hcongr]
    exact (pyFold_find ((x :: xs).count) xs x).symm

/-- C7: for every nonempty source set, the projection selected by
getReferenceFromFiles is the mode of the source projections, with ties
broken by the first-encountered projection among the maximum-frequency
set in source iteration order; equivalently, Python's
max(crs_list, key=crs_list.count) equals the spec's first-encountered
mode on every nonempty list. -/
theorem reference_crs_is_first_mode :
    (∀ l : List String, l ≠ [] → pyMaxByCount l = firstEncounteredMode l) ∧
    (∀ (env : RasterEnv) (st : LoaderState), st.files ≠ [] →
      ((getReferenceFromFiles env st).1.reference).elim False
        (fun r => some r.crs = firstEncounteredMode
          ((st.files.map Prod.snd).map (fun p => (env.openInfo p).crs)))) := by
  constructor
  · exact pyMaxByCount_eq_firstMode
  · intro env st hne
    obtain ⟨lim, refO, sig, fls, sor, vrt, blk⟩ := st
    cases fls with
    | nil => exact absurd rfl hne
    | cons hd rest =>
      obtain ⟨d, p⟩ := hd
      have key := pyMaxByCount_eq_firstMode
        ((((d, p) :: rest).map Prod.snd).map (fun q => (env.openInfo q).crs))
        (by simp)
      simp only [pyMaxByCount, pyMaxKey, List.map_cons] at key
      simp only [getReferenceFromFiles, pyMaxByCount, pyMaxKey, List.map_cons,
        Option.elim]
      exact key

/-- C7 witness: the mode selection applied to the two example lists of the
claim: [A,A,B] selects A, and the tie [A,B] selects A. -/
theorem reference_crs_is_first_mode_witness :
    (["A", "A", "B"] : List String) ≠ [] ∧
    pyMaxByCount ["A", "A", "B"] = firstEncounteredMode ["A", "A", "B"] ∧
    pyMaxByCount ["A", "A", "B"] = some "A" ∧
    (["A", "B"] : List String) ≠ [] ∧
    pyMaxByCount ["A", "B"] = firstEncounteredMode ["A", "B"] ∧
    pyMaxByCount ["A", "B"] = some "A" :=
  ⟨by decide, reference_crs_is_first_mode.1 ["A", "A", "B"] (by decide), by decide,
   by decide, reference_crs_is_first_mode.1 ["A", "B"] (by decide), by decide⟩

/-- C8 (amended): for every nonempty source set the resolver succeeds and
its GridDescriptor satisfies width = int((right-left)/x_res) and
height = int((top-bottom)/y_res) with Python int() truncation — which on
nonnegative quotients is the floor, not round — and the transform origin
equals (left, top) of the union bounds. -/
theorem resolver_grid_invariant_trunc :
    (∀ q : ℚ, 0 ≤ q → pyInt q = ⌊q⌋) ∧
    (∀ (env : RasterEnv) (st : LoaderState), st.files ≠ [] →
      (getReferenceFromFiles env st).2 = none ∧
      ((getReferenceFromFiles env st).1.reference).elim False (fun r =>
        r.shape.1 = pyInt ((r.bounds.right - r.bounds.left) / r.res.1) ∧
        r.shape.2 = pyInt ((r.bounds.top - r.bounds.bottom) / r.res.2) ∧
        r.transform.c = r.bounds.left ∧ r.transform.f = r.bounds.top)) := by
  constructor
  · intro q hq
    unfold pyInt
    rw [if_pos hq]
  · intro env st hne
    obtain ⟨lim, refO, sig, fls, sor, vrt, blk⟩ := st
    cases fls with
    | nil => exact absurd rfl hne
    | cons hd rest =>
      obtain ⟨d, p⟩ := hd
      simp [getReferenceFromFiles, pyMaxByCount, pyMaxKey, List.map_cons,
        Option.elim, fromOrigin]

/-- C8 counterexample: a single source with bounds (0,0,7,2) and
resolution (2,1): the resolver computes width int(3.5) = 3, while
round((right-left)/x_res) = round(3.5) = 4, so the claimed rounding
invariant fails on the produced GridDescriptor. -/
theorem resolver_truncates_not_rounds :
    (getReferenceFromFiles envT stT).1.reference = some refT ∧
    refT.shape.1 ≠ round ((refT.bounds.right - refT.bounds.left) / refT.res.1) := by
  constructor
  · simp [getReferenceFromFiles, envT, stT, st0, envOk, refT, pyMaxByCount,
      pyMaxKey, fromOrigin, pyInt]
    norm_num
  · show (3 : ℤ) ≠ round (((7 : ℚ) - 0) / 2)
    rw [round_eq]
    norm_num

/-- C8 witness: the truncation invariant applied to the concrete resolver
run on envT, plus the floor form of pyInt at 7/2. -/
theorem resolver_grid_invariant_trunc_witness :
    pyInt ((7 : ℚ) / 2) = ⌊((7 : ℚ) / 2)⌋ ∧ stT.files ≠ [] ∧
    ((getReferenceFromFiles envT stT).2 = none ∧
      ((getReferenceFromFiles envT stT).1.reference).elim False (fun r =>
        r.shape.1 = pyInt ((r.bounds.right - r.bounds.left) / r.res.1) ∧
        r.shape.2 = pyInt ((r.bounds.top - r.bounds.bottom) / r.res.2) ∧
        r.transform.c = r.bounds.left ∧ r.transform.f = r.bounds.top)) :=
  ⟨resolver_grid_invariant_trunc.1 ((7 : ℚ) / 2) (by norm_num), by decide,
    resolver_grid_invariant_trunc.2 envT stT (by decide)⟩
